import Mathlib

/-!
Formal model of `lowess.py`.

This file is a shallow embedding, in exact rational arithmetic, of the two
entry points of `lowess.py`:

* `lowessNd(x_star, x, y, kernel, bandwidth, radial)` — locally weighted
  linear regression for vector predictors (source lines 24–71);
* `lowess(x_star, x, y, bandwidth)` — the scalar-predictor variant
  (source lines 74–90).

Modelling conventions:

* NumPy float arrays are modelled by `List ℚ` / `List (List ℚ)` and exact
  rational arithmetic.  `(N,1)` column arrays produced by
  `np.array(v, ndmin=2).T` are represented by the scalar list of their
  entries, except where the two-dimensional shape is behaviourally relevant:
  `np.sort(d)` sorts along the last axis, i.e. sorts each length-1 row of the
  column separately, so the column is materialised there (`toColumn`,
  `npSortRows`).  The response array `y` is taken with the same `(N,1)`
  column shape as every other per-observation array, so all products in the
  normal-equation sums are elementwise over the observation index.
* `np.linalg.norm(x - x_star, axis=1)` computes real Euclidean norms; in
  exact rational arithmetic a norm is representable only when the squared
  norm is a perfect rational square (always the case for one-dimensional
  rows).  `ratSqrt` returns the exact nonnegative square root when it
  exists; an unrepresentable norm surfaces as the model-artifact error
  `PyErr.irrationalNorm`, and theorems about the N-dimensional pipeline are
  conditioned on the distance step succeeding.
* `scipy.linalg.solve(A, b)` is modelled by `ratSolve`: Gaussian elimination
  with exact arithmetic, failing with `SolveErr.singular` on a singular
  system and with `SolveErr.shapeMismatch` when `A` is not square of the
  size of `b` — the two failure classes of the external solver.
* Python exceptions are modelled by `Except PyErr`.  NumPy integer indexing
  (negative indices wrap, out-of-range raises `IndexError`) is `npIndexZ`.
* `kernels.tricube` is imported by `lowess.py` but its source is not part of
  the repository snapshot; `tricube` below is modelled from the spec.
-/

namespace LowessModel

/-- Failure classes of the external linear solver `scipy.linalg.solve`:
a singular coefficient matrix, or arguments whose shapes do not form a
square system. -/
inductive SolveErr where
  | singular
  | shapeMismatch
deriving DecidableEq, Repr

/-- Python-level exceptions observable from the two entry points.
`irrationalNorm` is a model artifact: it marks inputs whose real Euclidean
distances are not representable in exact rational arithmetic. -/
inductive PyErr where
  | indexOutOfRange
  | broadcastMismatch
  | irrationalNorm
  | solveFailed (e : SolveErr)
deriving DecidableEq, Repr

/-- Elementwise effectful map, modelling a NumPy elementwise computation that
may raise: the first failing element's exception propagates. -/
def mapE {α β : Type} (f : α → Except PyErr β) : List α → Except PyErr (List β)
  | [] => Except.ok []
  | a :: as =>
    match f a, mapE f as with
    | Except.ok b, Except.ok bs => Except.ok (b :: bs)
    | Except.error e, _ => Except.error e
    | Except.ok _, Except.error e => Except.error e

/-- Sequencing of fallible steps: Python's exception propagation (an
uncaught exception aborts the call with that exception). -/
def exceptBind {α β : Type} (m : Except PyErr α) (f : α → Except PyErr β) :
    Except PyErr β :=
  match m with
  | Except.error e => Except.error e
  | Except.ok a => f a

/-- Downward search for the integer square root: the largest `k ≤ c` with
`k * k ≤ n`. -/
def isqrtDown (n : ℕ) : ℕ → ℕ
  | 0 => 0
  | Nat.succ c => if (c + 1) * (c + 1) ≤ n then c + 1 else isqrtDown n c

/-- Integer square root by downward search (exact on perfect squares). -/
def isqrt (n : ℕ) : ℕ :=
  isqrtDown n n

/-- Candidate square root of a rational, from the integer square roots of
the (normalised) numerator and denominator. -/
def ratSqrtCand (q : ℚ) : ℚ :=
  (isqrt q.num.toNat : ℚ) / (isqrt q.den : ℚ)

/-- Exact rational square root: `some s` with `0 ≤ s` and `s * s = q` when
such a rational exists, `none` otherwise. -/
def ratSqrt (q : ℚ) : Option ℚ :=
  if 0 ≤ q ∧ ratSqrtCand q * ratSqrtCand q = q then some (ratSqrtCand q) else none

/-- Euclidean norm of a (difference) row, i.e. one entry of
`np.linalg.norm(x - x_star, axis=1)`: the square root of the sum of the
squared components. -/
def rowNorm (v : List ℚ) : Option ℚ :=
  ratSqrt ((v.map fun t => t * t).sum)

/-- NumPy integer indexing on one axis: nonnegative indices are positional,
negative indices wrap once from the end, anything else raises. -/
def npIndexZ {α : Type} (l : List α) (i : ℤ) : Option α :=
  if 0 ≤ i then l[i.toNat]?
  else if 0 ≤ (l.length : ℤ) + i then l[((l.length : ℤ) + i).toNat]?
  else none

/-- Ascending insertion of one element, for `sortAsc`. -/
def insertAsc (a : ℚ) : List ℚ → List ℚ
  | [] => [a]
  | b :: t => if a ≤ b then a :: b :: t else b :: insertAsc a t

/-- Ascending insertion sort on rationals (the order `np.sort` uses). -/
def sortAsc (l : List ℚ) : List ℚ :=
  l.foldr insertAsc []

/-- The `(N,1)` column array `np.array(v, ndmin=2).T` built from a length-N
vector. -/
def toColumn (v : List ℚ) : List (List ℚ) :=
  v.map fun t => [t]

/-- `np.sort` with its default `axis=-1` on a two-dimensional array: each row
is sorted separately.  On an `(N,1)` column every row has length 1, so this
is the identity — the source's `np.sort(d)` never reorders the distances. -/
def npSortRows (m : List (List ℚ)) : List (List ℚ) :=
  m.map sortAsc

/-- The bandwidth rank `r = int(np.ceil(bandwidth * n))` (source lines 49 and
77); `int()` truncation of the already-integral `np.ceil` value is exactly
the ceiling. -/
def bandR (bandwidth : ℚ) (n : ℕ) : ℤ :=
  ⌈bandwidth * (n : ℚ)⌉

/-- The radius computation `h = np.sort(d)[r]` (source lines 50 and 80): the
distance column is row-sorted (a no-op), row `r` is selected with NumPy
indexing, and the resulting shape-`(1,)` array acts as the scalar it
contains. -/
def hFromDist (dist : List ℚ) (r : ℤ) : Except PyErr ℚ :=
  match npIndexZ (npSortRows (toColumn dist)) r with
  | some row => Except.ok (row.headD 0)
  | none => Except.error PyErr.indexOutOfRange

/-- Pointwise difference `row - x_star` of one data row and the query
point. -/
def rowDiff (row q : List ℚ) : List ℚ :=
  row.zipWith (fun a b => a - b) q

/-- The distance vector `dist = np.linalg.norm(x - x_star, axis=1)` (source
line 47): per-row Euclidean distance to the query point.  A row whose length
differs from the query's raises a broadcast error; a distance not
representable in ℚ surfaces as the model artifact `irrationalNorm`. -/
def ndDist (x_star : List ℚ) (x : List (List ℚ)) : Except PyErr (List ℚ) :=
  mapE (fun row =>
    if row.length = x_star.length then
      match rowNorm (rowDiff row x_star) with
      | some t => Except.ok t
      | none => Except.error PyErr.irrationalNorm
    else Except.error PyErr.broadcastMismatch) x

/-- The weight vector `w = kernel(d / h)` (source lines 51 and 81): the
kernel applied elementwise to the distances normalised by the radius. -/
def weightsFrom (kernel : ℚ → ℚ) (dist : List ℚ) (h : ℚ) : List ℚ :=
  dist.map fun t => kernel (t / h)

/-- The extended design matrix `x_ext = np.hstack([np.ones((n, 1)), x])`
(source line 58): a leading column of ones prepended to the predictors. -/
def designExt (x : List (List ℚ)) : List (List ℚ) :=
  x.map fun row => 1 :: row

/-- The right-hand side `b = np.array([np.sum(y * w * x_ext[:, [i]]) for i in
rng])` (source line 62), with all three factors `(N,1)` columns, so each sum
is elementwise over observations. -/
def ndB (y w : List ℚ) (xe : List (List ℚ)) (dim : ℕ) : List ℚ :=
  (List.range (dim + 1)).map fun i =>
    ((y.zip (w.zip xe)).map fun p => p.1 * p.2.1 * (p.2.2.getD i 0)).sum

/-- The coefficient matrix `A = np.array([[np.sum(w * x_ext[:, [i]] *
x_ext[:, [j]]) for i in rng] for j in rng])` (source lines 63–64): outer
index `j` is the row, inner index `i` the column. -/
def ndA (w : List ℚ) (xe : List (List ℚ)) (dim : ℕ) : List (List ℚ) :=
  (List.range (dim + 1)).map fun j =>
    (List.range (dim + 1)).map fun i =>
      ((w.zip xe).map fun p => p.1 * (p.2.getD i 0) * (p.2.getD j 0)).sum

/-- Pivot selection for Gaussian elimination: the first row whose leading
coefficient is nonzero, together with the remaining rows; `none` when every
leading coefficient vanishes (a singular column). -/
def pivotSplit : List (List ℚ) → Option (List ℚ × List (List ℚ))
  | [] => none
  | row :: rest =>
    if row.headD 0 = 0 then
      match pivotSplit rest with
      | none => none
      | some (p, others) => some (p, row :: others)
    else some (row, rest)

/-- Gaussian elimination on augmented rows (each row: `n` coefficients then
the right-hand side), with structural fuel equal to the row count.  A column
with no nonzero pivot means the system is singular. -/
def gaussAux : ℕ → List (List ℚ) → Except SolveErr (List ℚ)
  | _, [] => Except.ok []
  | 0, _ :: _ => Except.error SolveErr.singular
  | Nat.succ fuel, r :: rs =>
    match pivotSplit (r :: rs) with
    | none => Except.error SolveErr.singular
    | some (p, others) =>
      let pivot := p.headD 0
      let reduced := others.map fun row =>
        (row.tail).zipWith (fun a c => a - row.headD 0 / pivot * c) p.tail
      match gaussAux fuel reduced with
      | Except.error e => Except.error e
      | Except.ok xs =>
        Except.ok
          ((p.tail.getLastD 0 -
              (p.tail.dropLast.zipWith (fun a b => a * b) xs).sum) / pivot
            :: xs)

/-- Model of `scipy.linalg.solve(A, b)`: requires a square system matching
`b`'s length, then eliminates; failure is either a shape mismatch or a
singular system. -/
def ratSolve (A : List (List ℚ)) (b : List ℚ) : Except SolveErr (List ℚ) :=
  if A.length = b.length ∧ ∀ row ∈ A, row.length = b.length then
    gaussAux A.length (A.zipWith (fun row bi => row ++ [bi]) b)
  else Except.error SolveErr.shapeMismatch

/-- Modelled from the spec: `kernels.tricube`, imported by `lowess.py` from
the `kernels` module that is absent from the repository snapshot.  The spec's
glossary defines it as `w(u) = (1 - |u|^3)^3` for `|u| < 1`, else `0`. -/
def tricube (u : ℚ) : ℚ :=
  if |u| < 1 then (1 - |u| ^ 3) ^ 3 else 0

/-- The try/except block around the solve in `lowessNd` (source lines
65–69): a bare `except:` catches every solver failure and substitutes
`np.zeros(n + 1)` — a zero vector sized by the number of observations `n`,
not by the coefficient count. -/
def solveOrZeros (A : List (List ℚ)) (b : List ℚ) (n : ℕ) : List ℚ :=
  match ratSolve A b with
  | Except.ok v => v
  | Except.error _ => List.replicate (n + 1) 0

/-- `lowessNd(x_star, x, y, kernel, bandwidth, radial)` (source lines
24–71): distances, bandwidth radius, kernel weights, weighted normal
equations, solve with the catch-all zero fallback, returning the
coefficients and the distance vector.  The `radial` flag is accepted but
never used (its branch, source lines 53–56, is commented out). -/
def lowessNd (x_star : List ℚ) (x : List (List ℚ)) (y : List ℚ)
    (kernel : ℚ → ℚ) (bandwidth : ℚ) (radial : Bool) :
    Except PyErr (List ℚ × List ℚ) :=
  let n := x.length
  let dim := (x.headD []).length
  exceptBind (ndDist x_star x) fun dist =>
    exceptBind (hFromDist dist (bandR bandwidth n)) fun h =>
      let w := weightsFrom kernel dist h
      let xe := designExt x
      let b := ndB y w xe dim
      let A := ndA w xe dim
      Except.ok (solveOrZeros A b n, dist)

/-- The distance column of the 1-D variant (source line 79, which overwrites
the dead assignment of line 78): `np.linalg.norm(x - x_star, axis=1)` on the
`(N,1)` predictor column, i.e. the per-row one-component Euclidean norm. -/
def low1Dist (x_star : ℚ) (x : List ℚ) : Except PyErr (List ℚ) :=
  mapE (fun xi =>
    match rowNorm [xi - x_star] with
    | some t => Except.ok t
    | none => Except.error PyErr.irrationalNorm) x

/-- The 1-D right-hand side `b = np.array([np.sum(w * y), np.sum(w * y *
x)])` (source line 83). -/
def low1B (w y x : List ℚ) : List ℚ :=
  [((w.zip y).map fun p => p.1 * p.2).sum,
   ((w.zip (y.zip x)).map fun p => p.1 * p.2.1 * p.2.2).sum]

/-- The 1-D coefficient matrix `A = np.array([[np.sum(w), np.sum(w * x)],
[np.sum(w * x), np.sum(w * x * x)]])` (source lines 84–85). -/
def low1A (w x : List ℚ) : List (List ℚ) :=
  [[w.sum, ((w.zip x).map fun p => p.1 * p.2).sum],
   [((w.zip x).map fun p => p.1 * p.2).sum,
    ((w.zip x).map fun p => p.1 * p.2 * p.2).sum]]

/-- An uncaught failure of `scipy.linalg.solve` seen at the Python level:
the solver exception propagates as-is. -/
def liftSolve (r : Except SolveErr (List ℚ)) : Except PyErr (List ℚ) :=
  match r with
  | Except.ok v => Except.ok v
  | Except.error e => Except.error (PyErr.solveFailed e)

/-- The return expression of `lowess` (source line 90): `beta[1], beta[0],
w` — slope before intercept, with the weight vector third; indexing a
too-short solution would itself raise. -/
def pickSlopeIntercept (beta : List ℚ) (w : List ℚ) :
    Except PyErr (ℚ × ℚ × List ℚ) :=
  match beta[1]?, beta[0]? with
  | some s, some i0 => Except.ok (s, i0, w)
  | _, _ => Except.error PyErr.indexOutOfRange

/-- `lowess(x_star, x, y, bandwidth)` (source lines 74–90): the scalar
variant, hard-wired to the tricube kernel, with no try/except around the
solve — a solver failure propagates — returning `(beta[1], beta[0], w)`. -/
def lowess (x_star : ℚ) (x : List ℚ) (y : List ℚ) (bandwidth : ℚ) :
    Except PyErr (ℚ × ℚ × List ℚ) :=
  let n := x.length
  let r := bandR bandwidth n
  exceptBind (low1Dist x_star x) fun d =>
    exceptBind (hFromDist d r) fun h =>
      let w := weightsFrom tricube d h
      let b := low1B w y x
      let A := low1A w x
      exceptBind (liftSolve (ratSolve A b)) fun beta =>
        pickSlopeIntercept beta w

/-- The design-matrix accessor used to state the normal-equation formulas:
`X i k` is entry `(i, k)` of `x_ext`, so column 0 is all ones and column
`k + 1` is predictor column `k`. -/
def Xdesign (x : List (List ℚ)) (i k : ℕ) : ℚ :=
  ((designExt x).getD i []).getD k 0

/-! ### Reduction lemmas for the plumbing combinators -/

lemma exceptBind_ok {α β : Type} (a : α) (f : α → Except PyErr β) :
    exceptBind (Except.ok a) f = f a := rfl

lemma exceptBind_error {α β : Type} (e : PyErr) (f : α → Except PyErr β) :
    exceptBind (Except.error e) f = Except.error e := rfl

lemma solveOrZeros_ok {A : List (List ℚ)} {b v : List ℚ} (n : ℕ)
    (h : ratSolve A b = Except.ok v) : solveOrZeros A b n = v := by
  unfold solveOrZeros
  rw [h]

lemma solveOrZeros_error {A : List (List ℚ)} {b : List ℚ} {e : SolveErr} (n : ℕ)
    (h : ratSolve A b = Except.error e) :
    solveOrZeros A b n = List.replicate (n + 1) 0 := by
  unfold solveOrZeros
  rw [h]

lemma liftSolve_ok {r : Except SolveErr (List ℚ)} {v : List ℚ}
    (h : r = Except.ok v) : liftSolve r = Except.ok v := by
  rw [h]
  rfl

lemma liftSolve_error {r : Except SolveErr (List ℚ)} {e : SolveErr}
    (h : r = Except.error e) :
    liftSolve r = Except.error (PyErr.solveFailed e) := by
  rw [h]
  rfl

lemma pickSlopeIntercept_eq {beta w : List ℚ} {b1 b0 : ℚ}
    (h1 : beta[1]? = some b1) (h0 : beta[0]? = some b0) :
    pickSlopeIntercept beta w = Except.ok (b1, b0, w) := by
  unfold pickSlopeIntercept
  rw [h1, h0]

/-! ### The no-op row sort and NumPy indexing -/

lemma sortAsc_singleton (a : ℚ) : sortAsc [a] = [a] := rfl

lemma npSortRows_toColumn (d : List ℚ) : npSortRows (toColumn d) = toColumn d := by
  unfold npSortRows toColumn
  rw [List.map_map]
  exact List.map_congr_left fun a _ => rfl

lemma hFromDist_eq (d : List ℚ) (r : ℤ) :
    hFromDist d r =
      match npIndexZ d r with
      | some t => Except.ok t
      | none => Except.error PyErr.indexOutOfRange := by
  unfold hFromDist
  rw [npSortRows_toColumn]
  unfold npIndexZ toColumn
  simp only [List.length_map, List.getElem?_map]
  by_cases h0 : 0 ≤ r
  · rw [if_pos h0, if_pos h0]
    cases d[r.toNat]? <;> rfl
  · rw [if_neg h0, if_neg h0]
    by_cases h1 : 0 ≤ (d.length : ℤ) + r
    · rw [if_pos h1, if_pos h1]
      cases d[((d.length : ℤ) + r).toNat]? <;> rfl
    · rw [if_neg h1, if_neg h1]

lemma npIndexZ_none {α : Type} (l : List α) (r : ℤ) (h : (l.length : ℤ) ≤ r) :
    npIndexZ l r = none := by
  unfold npIndexZ
  rw [if_pos (le_trans (Int.natCast_nonneg l.length) h)]
  apply List.getElem?_eq_none
  omega

lemma hFromDist_none (d : List ℚ) (r : ℤ) (h : (d.length : ℤ) ≤ r) :
    hFromDist d r = Except.error PyErr.indexOutOfRange := by
  rw [hFromDist_eq, npIndexZ_none d r h]

lemma hFromDist_ok {d : List ℚ} {r : ℤ} {t : ℚ} (h0 : 0 ≤ r)
    (h : d[r.toNat]? = some t) : hFromDist d r = Except.ok t := by
  rw [hFromDist_eq]
  unfold npIndexZ
  rw [if_pos h0, h]

lemma hFromDist_error_kind {d : List ℚ} {r : ℤ} {e : PyErr}
    (h : hFromDist d r = Except.error e) : e = PyErr.indexOutOfRange := by
  rw [hFromDist_eq] at h
  cases hnp : npIndexZ d r with
  | some t =>
    rw [hnp] at h
    exact Except.noConfusion h
  | none =>
    rw [hnp] at h
    injection h with h2
    exact h2.symm

/-! ### The exact square root and the Euclidean row norm -/

lemma isqrtDown_sq (m : ℕ) : ∀ c : ℕ, m ≤ c → isqrtDown (m * m) c = m := by
  intro c
  induction c with
  | zero =>
    intro h
    interval_cases m
    rfl
  | succ c ih =>
    intro h
    unfold isqrtDown
    by_cases hm : m = c + 1
    · subst hm
      rw [if_pos (le_refl _)]
    · have hlt : m < c + 1 := by omega
      have hno : ¬ (c + 1) * (c + 1) ≤ m * m := by
        have := Nat.mul_self_lt_mul_self hlt
        omega
      rw [if_neg hno]
      exact ih (by omega)

lemma isqrt_sq (m : ℕ) : isqrt (m * m) = m := by
  rcases Nat.eq_zero_or_pos m with h | h
  · subst h
    rfl
  · exact isqrtDown_sq m (m * m) (Nat.le_mul_of_pos_left m h)

lemma ratSqrt_ok {q s : ℚ} (h : ratSqrt q = some s) : 0 ≤ s ∧ s * s = q := by
  unfold ratSqrt at h
  split at h
  · rename_i hc
    injection h with h2
    rw [← h2]
    exact ⟨div_nonneg (Nat.cast_nonneg _) (Nat.cast_nonneg _), hc.2⟩
  · exact Option.noConfusion h

lemma ratSqrtCand_sq (t : ℚ) (h : 0 ≤ t) : ratSqrtCand (t * t) = t := by
  unfold ratSqrtCand
  have h0 : 0 ≤ t.num := Rat.num_nonneg.2 h
  have hnum : (t * t).num.toNat = t.num.toNat * t.num.toNat := by
    rw [Rat.mul_self_num]
    rcases Int.eq_ofNat_of_zero_le h0 with ⟨n, hn⟩
    rw [hn, ← Int.ofNat_mul]
    rfl
  have hden : (t * t).den = t.den * t.den := Rat.mul_self_den t
  rw [hnum, hden, isqrt_sq, isqrt_sq]
  have hcast : ((t.num.toNat : ℚ)) = ((t.num : ℚ)) := by
    have h1 : ((t.num.toNat : ℤ)) = t.num := Int.toNat_of_nonneg h0
    exact_mod_cast congrArg (fun z : ℤ => (z : ℚ)) h1
  rw [hcast]
  exact Rat.num_div_den t

lemma ratSqrt_sq (t : ℚ) (h : 0 ≤ t) : ratSqrt (t * t) = some t := by
  unfold ratSqrt
  rw [ratSqrtCand_sq t h]
  exact if_pos ⟨mul_self_nonneg t, rfl⟩

lemma rowNorm_single (a : ℚ) : rowNorm [a] = some |a| := by
  unfold rowNorm
  have h : ([a].map fun t => t * t).sum = |a| * |a| := by
    simp [abs_mul_abs_self]
  rw [h]
  exact ratSqrt_sq |a| (abs_nonneg a)

lemma rowNorm_ok {v : List ℚ} {t : ℚ} (h : rowNorm v = some t) :
    0 ≤ t ∧ t * t = (v.map fun u => u * u).sum :=
  ratSqrt_ok h

/-! ### Elementwise maps that may raise -/

lemma mapE_cons_ok {α β : Type} {f : α → Except PyErr β} {a : α} {as : List α}
    {b : β} {bs : List β} (ha : f a = Except.ok b)
    (has : mapE f as = Except.ok bs) :
    mapE f (a :: as) = Except.ok (b :: bs) := by
  unfold mapE
  rw [ha, has]

lemma mapE_ok_length {α β : Type} (f : α → Except PyErr β) :
    ∀ (l : List α) (bs : List β), mapE f l = Except.ok bs → bs.length = l.length := by
  intro l
  induction l with
  | nil =>
    intro bs h
    unfold mapE at h
    injection h with h2
    rw [← h2]
    rfl
  | cons a as ih =>
    intro bs h
    unfold mapE at h
    cases hfa : f a with
    | error e =>
      rw [hfa] at h
      exact Except.noConfusion h
    | ok b =>
      rw [hfa] at h
      cases hmas : mapE f as with
      | error e =>
        rw [hmas] at h
        exact Except.noConfusion h
      | ok bs2 =>
        rw [hmas] at h
        injection h with h2
        rw [← h2, List.length_cons, List.length_cons, ih bs2 hmas]

lemma mapE_ok_get {α β : Type} (f : α → Except PyErr β) :
    ∀ (l : List α) (bs : List β), mapE f l = Except.ok bs →
      ∀ (i : ℕ) (a : α), l[i]? = some a →
        ∃ b, bs[i]? = some b ∧ f a = Except.ok b := by
  intro l
  induction l with
  | nil =>
    intro bs _ i a ha
    exact Option.noConfusion ha
  | cons a0 as ih =>
    intro bs h i a ha
    unfold mapE at h
    cases hfa : f a0 with
    | error e =>
      rw [hfa] at h
      exact Except.noConfusion h
    | ok b0 =>
      rw [hfa] at h
      cases hmas : mapE f as with
      | error e =>
        rw [hmas] at h
        exact Except.noConfusion h
      | ok bs2 =>
        rw [hmas] at h
        injection h with h2
        rw [← h2]
        cases i with
        | zero =>
          rw [List.getElem?_cons_zero] at ha
          injection ha with h3
          rw [← h3]
          exact ⟨b0, List.getElem?_cons_zero, hfa⟩
        | succ j =>
          rw [List.getElem?_cons_succ] at ha
          obtain ⟨b, hb, hfb⟩ := ih bs2 hmas j a ha
          exact ⟨b, by rw [List.getElem?_cons_succ]; exact hb, hfb⟩

lemma mapE_error_mem {α β : Type} (f : α → Except PyErr β) :
    ∀ (l : List α) (e : PyErr), mapE f l = Except.error e →
      ∃ a ∈ l, f a = Except.error e := by
  intro l
  induction l with
  | nil =>
    intro e h
    exact Except.noConfusion h
  | cons a0 as ih =>
    intro e h
    unfold mapE at h
    cases hfa : f a0 with
    | error e2 =>
      rw [hfa] at h
      injection h with h2
      exact ⟨a0, List.mem_cons_self a0 as, by rw [hfa, h2]⟩
    | ok b0 =>
      rw [hfa] at h
      cases hmas : mapE f as with
      | error e2 =>
        rw [hmas] at h
        injection h with h2
        obtain ⟨a, hmem, hfa2⟩ := ih e2 hmas
        exact ⟨a, List.mem_cons_of_mem a0 hmem, by rw [hfa2, h2]⟩
      | ok bs2 =>
        rw [hmas] at h
        exact Except.noConfusion h

/-! ### Distance vectors -/

lemma low1Dist_eq (s : ℚ) (x : List ℚ) :
    low1Dist s x = Except.ok (x.map fun t => |t - s|) := by
  unfold low1Dist
  induction x with
  | nil => rfl
  | cons a as ih =>
    rw [List.map_cons]
    refine mapE_cons_ok ?_ ih
    rw [rowNorm_single]

lemma ndDist_nil (s : List ℚ) : ndDist s [] = Except.ok [] := rfl

lemma ndDist_cons_ok {s row : List ℚ} {x : List (List ℚ)} {t : ℚ} {ds : List ℚ}
    (hlen : row.length = s.length) (hn : rowNorm (rowDiff row s) = some t)
    (hx : ndDist s x = Except.ok ds) :
    ndDist s (row :: x) = Except.ok (t :: ds) := by
  unfold ndDist at hx ⊢
  refine mapE_cons_ok ?_ hx
  rw [if_pos hlen, hn]

lemma ndDist_one (s : ℚ) (x : List ℚ) :
    ndDist [s] (x.map fun t => [t]) = Except.ok (x.map fun t => |t - s|) := by
  induction x with
  | nil => rfl
  | cons a as ih =>
    rw [List.map_cons, List.map_cons]
    refine ndDist_cons_ok rfl ?_ ih
    rw [show rowDiff [a] [s] = [a - s] from rfl, rowNorm_single]

lemma ndDist_length {s : List ℚ} {x : List (List ℚ)} {ds : List ℚ}
    (h : ndDist s x = Except.ok ds) : ds.length = x.length :=
  mapE_ok_length _ x ds h

lemma ndDist_spec {s : List ℚ} {x : List (List ℚ)} {ds : List ℚ}
    (h : ndDist s x = Except.ok ds) (i : ℕ) (row : List ℚ)
    (hrow : x[i]? = some row) :
    ∃ t, ds[i]? = some t ∧ rowNorm (rowDiff row s) = some t := by
  obtain ⟨b, hb, hf⟩ := mapE_ok_get _ x ds h i row hrow
  refine ⟨b, hb, ?_⟩
  by_cases hl : row.length = s.length
  · rw [if_pos hl] at hf
    cases hrn : rowNorm (rowDiff row s) with
    | none =>
      rw [hrn] at hf
      exact Except.noConfusion hf
    | some u =>
      rw [hrn] at hf
      injection hf with h2
      rw [h2]
  · rw [if_neg hl] at hf
    exact Except.noConfusion hf

lemma ndDist_error_kind {s : List ℚ} {x : List (List ℚ)} {e : PyErr}
    (h : ndDist s x = Except.error e) :
    e = PyErr.broadcastMismatch ∨ e = PyErr.irrationalNorm := by
  obtain ⟨row, _, hf⟩ := mapE_error_mem _ x e h
  by_cases hl : row.length = s.length
  · rw [if_pos hl] at hf
    cases hrn : rowNorm (rowDiff row s) with
    | none =>
      rw [hrn] at hf
      injection hf with h2
      exact Or.inr h2.symm
    | some u =>
      rw [hrn] at hf
      exact Except.noConfusion hf
  · rw [if_neg hl] at hf
    injection hf with h2
    exact Or.inl h2.symm

/-! ### Running the two entry points -/

lemma lowessNd_run {s : List ℚ} {x : List (List ℚ)} {y : List ℚ} {k : ℚ → ℚ}
    {bw : ℚ} {rad : Bool} {ds : List ℚ} {h : ℚ}
    (hd : ndDist s x = Except.ok ds)
    (hh : hFromDist ds (bandR bw x.length) = Except.ok h) :
    lowessNd s x y k bw rad =
      Except.ok
        (solveOrZeros
          (ndA (weightsFrom k ds h) (designExt x) ((x.headD []).length))
          (ndB y (weightsFrom k ds h) (designExt x) ((x.headD []).length))
          x.length, ds) := by
  unfold lowessNd
  rw [hd, exceptBind_ok, hh, exceptBind_ok]

lemma lowessNd_distErr {s : List ℚ} {x : List (List ℚ)} {y : List ℚ}
    {k : ℚ → ℚ} {bw : ℚ} {rad : Bool} {e : PyErr}
    (hd : ndDist s x = Except.error e) :
    lowessNd s x y k bw rad = Except.error e := by
  unfold lowessNd
  rw [hd, exceptBind_error]

lemma lowessNd_hErr {s : List ℚ} {x : List (List ℚ)} {y : List ℚ}
    {k : ℚ → ℚ} {bw : ℚ} {rad : Bool} {ds : List ℚ} {e : PyErr}
    (hd : ndDist s x = Except.ok ds)
    (hh : hFromDist ds (bandR bw x.length) = Except.error e) :
    lowessNd s x y k bw rad = Except.error e := by
  unfold lowessNd
  rw [hd, exceptBind_ok, hh, exceptBind_error]

lemma lowess_run {s : ℚ} {x y : List ℚ} {bw : ℚ} {ds : List ℚ} {h : ℚ}
    (hd : low1Dist s x = Except.ok ds)
    (hh : hFromDist ds (bandR bw x.length) = Except.ok h) :
    lowess s x y bw =
      exceptBind
        (liftSolve (ratSolve (low1A (weightsFrom tricube ds h) x)
          (low1B (weightsFrom tricube ds h) y x)))
        fun beta => pickSlopeIntercept beta (weightsFrom tricube ds h) := by
  unfold lowess
  rw [hd, exceptBind_ok, hh, exceptBind_ok]

lemma lowess_hErr {s : ℚ} {x y : List ℚ} {bw : ℚ} {ds : List ℚ} {e : PyErr}
    (hd : low1Dist s x = Except.ok ds)
    (hh : hFromDist ds (bandR bw x.length) = Except.error e) :
    lowess s x y bw = Except.error e := by
  unfold lowess
  rw [hd, exceptBind_ok, hh, exceptBind_error]

/-! ### List sums as indexed sums -/

lemma list_sum_eq (u : List ℚ) :
    u.sum = ∑ i ∈ Finset.range u.length, u.getD i 0 := by
  induction u with
  | nil => simp
  | cons a u ih =>
    rw [List.sum_cons, List.length_cons, Finset.sum_range_succ']
    simp only [List.getD_cons_succ, List.getD_cons_zero]
    rw [ih]
    exact add_comm _ _

lemma zip_map_sum {α β : Type} (da : α) (db : β) (g : α → β → ℚ) :
    ∀ (u : List α) (v : List β), v.length = u.length →
      ((u.zip v).map fun p => g p.1 p.2).sum
        = ∑ i ∈ Finset.range u.length, g (u.getD i da) (v.getD i db) := by
  intro u
  induction u with
  | nil =>
    intro v hv
    simp
  | cons a u ih =>
    intro v hv
    cases v with
    | nil => simp at hv
    | cons b v =>
      rw [List.zip_cons_cons, List.map_cons, List.sum_cons, List.length_cons,
        Finset.sum_range_succ']
      simp only [List.getD_cons_succ, List.getD_cons_zero]
      rw [ih v (by simpa using hv)]
      exact add_comm _ _

lemma zip3_map_sum {β : Type} (db : β) (g : ℚ → ℚ → β → ℚ) :
    ∀ (u v : List ℚ) (m : List β), v.length = u.length → m.length = u.length →
      ((u.zip (v.zip m)).map fun p => g p.1 p.2.1 p.2.2).sum
        = ∑ i ∈ Finset.range u.length,
            g (u.getD i 0) (v.getD i 0) (m.getD i db) := by
  intro u
  induction u with
  | nil =>
    intro v m h1 h2
    simp
  | cons a u ih =>
    intro v m h1 h2
    cases v with
    | nil => simp at h1
    | cons b v =>
      cases m with
      | nil => simp at h2
      | cons c m =>
        rw [List.zip_cons_cons, List.zip_cons_cons, List.map_cons,
          List.sum_cons, List.length_cons, Finset.sum_range_succ']
        simp only [List.getD_cons_succ, List.getD_cons_zero]
        rw [ih v m (by simpa using h1) (by simpa using h2)]
        exact add_comm _ _

lemma map_sum_congr {α : Type} (l : List α) (f g : α → ℚ)
    (h : ∀ a ∈ l, f a = g a) : (l.map f).sum = (l.map g).sum := by
  rw [List.map_congr_left h]

lemma rangeMap_getElem {β : Type} (g : ℕ → β) {n k : ℕ} (h : k < n) :
    ((List.range n).map g)[k]? = some (g k) := by
  rw [List.getElem?_map, List.getElem?_range h]
  rfl

lemma rangeMap_getD {β : Type} (g : ℕ → β) {n k : ℕ} (h : k < n) (d : β) :
    ((List.range n).map g).getD k d = g k := by
  rw [List.getD_eq_getElem?_getD, rangeMap_getElem g h]
  rfl

/-! ### The 2x2 instance of the solver -/

lemma gaussAux_two_singular (a b c d p q : ℚ) (hdet : a * d - b * c = 0) :
    gaussAux 2 [[a, b, p], [c, d, q]] = Except.error SolveErr.singular := by
  by_cases ha : a = 0
  · by_cases hc : c = 0
    · simp [gaussAux, pivotSplit, ha, hc]
    · have hb : b = 0 := by
        rw [ha] at hdet
        have hbc : b * c = 0 := by linarith
        rcases mul_eq_zero.1 hbc with h | h
        · exact h
        · exact absurd h hc
      simp [gaussAux, pivotSplit, ha, hc, hb]
  · have hkey : d - c / a * b = 0 := by
      field_simp
      linear_combination hdet
    simp [gaussAux, pivotSplit, ha, hkey]

lemma gaussAux_two_ok (a b c d p q : ℚ) (hdet : a * d - b * c ≠ 0) :
    gaussAux 2 [[a, b, p], [c, d, q]] =
      Except.ok [(p * d - b * q) / (a * d - b * c),
                 (a * q - p * c) / (a * d - b * c)] := by
  have hd2 : -(b * c) + a * d ≠ 0 := by
    intro h
    exact hdet (by linarith)
  have hd3 : a * d - c * b ≠ 0 := by
    intro h
    exact hdet (by linarith)
  by_cases ha : a = 0
  · have hc : c ≠ 0 := fun h => hdet (by rw [ha, h]; ring)
    have hb : b ≠ 0 := fun h => hdet (by rw [ha, h]; ring)
    simp [gaussAux, pivotSplit, ha, hc, hb]
    constructor
    · field_simp [hd2]
      ring
    · field_simp [hd2]
      ring
  · have h2 : d - c / a * b ≠ 0 := by
      intro h
      apply hdet
      field_simp at h
      linear_combination h
    simp [gaussAux, pivotSplit, ha, h2]
    have hK : (-(b * c) + a * d) * (-(b * c) + a * d)⁻¹ = 1 := mul_inv_cancel₀ hd2
    have hK3 : (a * d - c * b) * (a * d - c * b)⁻¹ = 1 := mul_inv_cancel₀ hd3
    constructor
    · field_simp [hd2, hd3]
      linear_combination (p * b * c - b * q * a) * hK
    · field_simp [hd2, hd3]
      linear_combination (q * a - c * p) * hK3

lemma ratSolve_two (a b c d p q : ℚ) :
    ratSolve [[a, b], [c, d]] [p, q] = gaussAux 2 [[a, b, p], [c, d, q]] := by
  unfold ratSolve
  rw [if_pos (by simp)]
  rfl

lemma ratSolve_two_singular (a b c d p q : ℚ) (hdet : a * d - b * c = 0) :
    ratSolve [[a, b], [c, d]] [p, q] = Except.error SolveErr.singular := by
  rw [ratSolve_two]
  exact gaussAux_two_singular a b c d p q hdet

lemma ratSolve_two_ok (a b c d p q : ℚ) (hdet : a * d - b * c ≠ 0) :
    ratSolve [[a, b], [c, d]] [p, q] =
      Except.ok [(p * d - b * q) / (a * d - b * c),
                 (a * q - p * c) / (a * d - b * c)] := by
  rw [ratSolve_two]
  exact gaussAux_two_ok a b c d p q hdet

lemma tricube_of_lt {u : ℚ} (h0 : 0 ≤ u) (h1 : u < 1) :
    tricube u = (1 - u ^ 3) ^ 3 := by
  unfold tricube
  rw [abs_of_nonneg h0, if_pos h1]

lemma tricube_of_ge {u : ℚ} (h0 : 0 ≤ u) (h1 : 1 ≤ u) : tricube u = 0 := by
  unfold tricube
  rw [abs_of_nonneg h0, if_neg (not_lt.2 h1)]

/-! ### Claim theorems -/

/-- C9: the `radial` flag of `lowessNd` is a no-op — the radial branch is
commented out in the source, so the output is identical for `radial = True`
and `radial = False` on every input. -/
theorem radial_flag_is_noop (s : List ℚ) (x : List (List ℚ)) (y : List ℚ)
    (k : ℚ → ℚ) (bw : ℚ) :
    lowessNd s x y k bw true = lowessNd s x y k bw false := rfl

/-- C1 (code bug): the radius is NOT the `r`-th smallest distance.  Because
`d` is an `(N,1)` column, `np.sort(d)` sorts along the length-1 rows and is
the identity, so `h = d[r]` is the distance of observation `r` in input
order.  At `x = [[0],[3],[1],[2]]`, `x_star = [0]`, `bandwidth = 1/2`
(distances `[0,3,1,2]`, rank `r = 2`) the code produces `h = 1`, while the
`r`-th smallest distance — which the evidently intended `np.sort` and the
cited Cleveland algorithm prescribe — is `2`. -/
theorem radius_uses_unsorted_index :
    ndDist [0] [[0], [3], [1], [2]] = Except.ok [0, 3, 1, 2]
    ∧ low1Dist 0 [0, 3, 1, 2] = Except.ok [0, 3, 1, 2]
    ∧ bandR (1/2) 4 = 2
    ∧ hFromDist [0, 3, 1, 2] (bandR (1/2) 4) = Except.ok 1
    ∧ sortAsc [0, 3, 1, 2] = [0, 1, 2, 3]
    ∧ (sortAsc [0, 3, 1, 2])[2]? = some 2
    ∧ (1 : ℚ) ≠ 2 := by
  have hr : bandR (1/2) 4 = 2 := by norm_num [bandR]
  have hsort : sortAsc [0, 3, 1, 2] = ([0, 1, 2, 3] : List ℚ) := by
    norm_num [sortAsc, insertAsc]
  refine ⟨?_, ?_, hr, ?_, hsort, ?_, by norm_num⟩
  · have h := ndDist_one 0 [0, 3, 1, 2]
    norm_num at h
    exact h
  · have h := low1Dist_eq 0 [0, 3, 1, 2]
    norm_num at h
    exact h
  · rw [hr]
    exact hFromDist_ok (by norm_num) rfl
  · rw [hsort]
    rfl

/-- C2 (corrected): when the weighted normal equations are singular,
`lowessNd` does not raise — it returns an all-zero coefficient vector
together with the distance vector — but the zero vector has length `N + 1`
(`np.zeros(n + 1)` with `n` the observation count), which equals the claimed
`M + 1` only when `N = M`. -/
theorem lowessNd_singular_zero_fallback
    (s : List ℚ) (x : List (List ℚ)) (y : List ℚ) (k : ℚ → ℚ) (bw : ℚ)
    (rad : Bool) (ds : List ℚ) (h : ℚ)
    (hd : ndDist s x = Except.ok ds)
    (hh : hFromDist ds (bandR bw x.length) = Except.ok h)
    (hs : ratSolve (ndA (weightsFrom k ds h) (designExt x) ((x.headD []).length))
        (ndB y (weightsFrom k ds h) (designExt x) ((x.headD []).length))
      = Except.error SolveErr.singular) :
    lowessNd s x y k bw rad
      = Except.ok (List.replicate (x.length + 1) 0, ds) := by
  rw [lowessNd_run hd hh, solveOrZeros_error x.length hs]

/-- C2 witness: two coincident 1-predictor points away from the query give
all-zero weights, a singular 2x2 system, and a returned zero vector of
length 3 = N + 1. -/
theorem lowessNd_singular_zero_fallback_witness :
    lowessNd [1] [[0], [0]] [5, 7] tricube (1/2) false
      = Except.ok ([0, 0, 0], [1, 1]) := by
  have hd : ndDist [1] [[0], [0]] = Except.ok [1, 1] := by
    have h := ndDist_one 1 [0, 0]
    norm_num at h
    exact h
  have hh : hFromDist [1, 1] (bandR (1/2) [[0], [0]].length) = Except.ok 1 := by
    have hr : bandR (1/2) [[0], [0]].length = 1 := by norm_num [bandR]
    rw [hr]
    exact hFromDist_ok (by norm_num) rfl
  have hw : weightsFrom tricube [1, 1] 1 = [0, 0] := by
    norm_num [weightsFrom, tricube]
  have hA : ndA [0, 0] (designExt [[0], [0]]) 1 = [[0, 0], [0, 0]] := by
    norm_num [ndA, designExt, List.range_succ]
  have hB : ndB [5, 7] [0, 0] (designExt [[0], [0]]) 1 = [0, 0] := by
    norm_num [ndB, designExt, List.range_succ]
  have hs : ratSolve
      (ndA (weightsFrom tricube [1, 1] 1) (designExt [[0], [0]])
        (([[0], [0]] : List (List ℚ)).headD []).length)
      (ndB [5, 7] (weightsFrom tricube [1, 1] 1) (designExt [[0], [0]])
        (([[0], [0]] : List (List ℚ)).headD []).length)
      = Except.error SolveErr.singular := by
    show ratSolve (ndA (weightsFrom tricube [1, 1] 1) (designExt [[0], [0]]) 1)
      (ndB [5, 7] (weightsFrom tricube [1, 1] 1) (designExt [[0], [0]]) 1)
      = Except.error SolveErr.singular
    rw [hw, hA, hB]
    exact ratSolve_two_singular 0 0 0 0 0 0 (by norm_num)
  have hmain := lowessNd_singular_zero_fallback [1] [[0], [0]] [5, 7] tricube
    (1/2) false [1, 1] 1 hd hh hs
  simpa [List.replicate] using hmain

/-- C2 counterexample: at the same input the returned coefficient vector has
length 3 while `M + 1 = 2`, so the claim "beta ... has length M+1" is false
on the code. -/
theorem lowessNd_fallback_length_counterexample :
    lowessNd [1] [[0], [0]] [5, 7] tricube (1/2) false
      = Except.ok ([0, 0, 0], [1, 1])
    ∧ ¬ (([0, 0, 0] : List ℚ).length
        = (([[0], [0]] : List (List ℚ)).headD []).length + 1) := by
  constructor
  · have hd : ndDist [1] [[0], [0]] = Except.ok [1, 1] := by
      have h := ndDist_one 1 [0, 0]
      norm_num at h
      exact h
    have hh : hFromDist [1, 1] (bandR (1/2) [[0], [0]].length) = Except.ok 1 := by
      have hr : bandR (1/2) [[0], [0]].length = 1 := by norm_num [bandR]
      rw [hr]
      exact hFromDist_ok (by norm_num) rfl
    have hw : weightsFrom tricube [1, 1] 1 = [0, 0] := by
      norm_num [weightsFrom, tricube]
    have hA : ndA [0, 0] (designExt [[0], [0]]) 1 = [[0, 0], [0, 0]] := by
      norm_num [ndA, designExt, List.range_succ]
    have hB : ndB [5, 7] [0, 0] (designExt [[0], [0]]) 1 = [0, 0] := by
      norm_num [ndB, designExt, List.range_succ]
    have hs : ratSolve
        (ndA (weightsFrom tricube [1, 1] 1) (designExt [[0], [0]])
          (([[0], [0]] : List (List ℚ)).headD []).length)
        (ndB [5, 7] (weightsFrom tricube [1, 1] 1) (designExt [[0], [0]])
          (([[0], [0]] : List (List ℚ)).headD []).length)
        = Except.error SolveErr.singular := by
      show ratSolve (ndA (weightsFrom tricube [1, 1] 1) (designExt [[0], [0]]) 1)
        (ndB [5, 7] (weightsFrom tricube [1, 1] 1) (designExt [[0], [0]]) 1)
        = Except.error SolveErr.singular
      rw [hw, hA, hB]
      exact ratSolve_two_singular 0 0 0 0 0 0 (by norm_num)
    rw [lowessNd_run hd hh, solveOrZeros_error [[0], [0]].length hs]
    simp [List.replicate]
  · simp

/-- C3: the 1-D variant has no try/except around the solve: whenever the
weighted 2x2 system is rejected by the solver, `lowess` propagates the
solver failure as an error instead of returning a zero fallback. -/
theorem lowess_singular_propagates
    (s : ℚ) (x y : List ℚ) (bw : ℚ) (ds : List ℚ) (h : ℚ) (e : SolveErr)
    (hd : low1Dist s x = Except.ok ds)
    (hh : hFromDist ds (bandR bw x.length) = Except.ok h)
    (hs : ratSolve (low1A (weightsFrom tricube ds h) x)
        (low1B (weightsFrom tricube ds h) y x) = Except.error e) :
    lowess s x y bw = Except.error (PyErr.solveFailed e) := by
  rw [lowess_run hd hh, liftSolve_error hs, exceptBind_error]

/-- C3 witness: `x = [0,5,0,0]`, `x_star = 0`, bandwidth 1/4 — the only
weighted points share the single value 0, the 2x2 system is singular, and
`lowess` returns the propagated solver error. -/
theorem lowess_singular_propagates_witness :
    lowess 0 [0, 5, 0, 0] [1, 2, 3, 4] (1/4)
      = Except.error (PyErr.solveFailed SolveErr.singular) := by
  have hd : low1Dist 0 [0, 5, 0, 0] = Except.ok [0, 5, 0, 0] := by
    have h := low1Dist_eq 0 [0, 5, 0, 0]
    norm_num at h
    exact h
  have hh : hFromDist [0, 5, 0, 0] (bandR (1/4) [0, 5, 0, 0].length)
      = Except.ok 5 := by
    have hr : bandR (1/4) [0, 5, 0, 0].length = 1 := by norm_num [bandR]
    rw [hr]
    exact hFromDist_ok (by norm_num) rfl
  have hw : weightsFrom tricube [0, 5, 0, 0] 5 = [1, 0, 1, 1] := by
    norm_num [weightsFrom, tricube]
  have hA : low1A [1, 0, 1, 1] [0, 5, 0, 0] = [[3, 0], [0, 0]] := by
    norm_num [low1A]
  have hB : low1B [1, 0, 1, 1] [1, 2, 3, 4] [0, 5, 0, 0] = [8, 0] := by
    norm_num [low1B]
  have hs : ratSolve (low1A (weightsFrom tricube [0, 5, 0, 0] 5) [0, 5, 0, 0])
      (low1B (weightsFrom tricube [0, 5, 0, 0] 5) [1, 2, 3, 4] [0, 5, 0, 0])
      = Except.error SolveErr.singular := by
    rw [hw, hA, hB]
    exact ratSolve_two_singular 3 0 0 0 8 0 (by norm_num)
  exact lowess_singular_propagates 0 [0, 5, 0, 0] [1, 2, 3, 4] (1/4)
    [0, 5, 0, 0] 5 SolveErr.singular hd hh hs

/-- C4: when the bandwidth rank `r = ceil(f * N)` reaches `N`, indexing the
distance column raises an index-out-of-range error in both variants — the
rank is neither clamped nor wrapped into a silently returned value. -/
theorem rank_out_of_range_raises :
    (∀ (s : List ℚ) (x : List (List ℚ)) (y : List ℚ) (k : ℚ → ℚ) (bw : ℚ)
        (rad : Bool) (ds : List ℚ),
        ndDist s x = Except.ok ds → (x.length : ℤ) ≤ bandR bw x.length →
        lowessNd s x y k bw rad = Except.error PyErr.indexOutOfRange)
    ∧ ∀ (s : ℚ) (x y : List ℚ) (bw : ℚ),
        (x.length : ℤ) ≤ bandR bw x.length →
        lowess s x y bw = Except.error PyErr.indexOutOfRange := by
  constructor
  · intro s x y k bw rad ds hd hbw
    have hlen : (ds.length : ℤ) ≤ bandR bw x.length := by
      rw [ndDist_length hd]
      exact hbw
    exact lowessNd_hErr hd (hFromDist_none ds _ hlen)
  · intro s x y bw hbw
    have hd := low1Dist_eq s x
    have hlen : ((x.map fun t => |t - s|).length : ℤ) ≤ bandR bw x.length := by
      rw [List.length_map]
      exact hbw
    exact lowess_hErr hd (hFromDist_none _ _ hlen)

/-- C4 witness: `N = 3`, bandwidth fraction 1 gives `r = 3`, one past the
end of the three distances — both variants raise. -/
theorem rank_out_of_range_raises_witness :
    lowessNd [0] [[1], [2], [3]] [0, 0, 0] tricube 1 false
      = Except.error PyErr.indexOutOfRange
    ∧ lowess 0 [1, 2, 3] [0, 0, 0] 1 = Except.error PyErr.indexOutOfRange := by
  constructor
  · have hd : ndDist [0] [[1], [2], [3]] = Except.ok [1, 2, 3] := by
      have h := ndDist_one 0 [1, 2, 3]
      norm_num at h
      exact h
    refine rank_out_of_range_raises.1 [0] [[1], [2], [3]] [0, 0, 0] tricube 1
      false [1, 2, 3] hd ?_
    norm_num [bandR]
  · refine rank_out_of_range_raises.2 0 [1, 2, 3] [0, 0, 0] 1 ?_
    norm_num [bandR]

/-- C5: every computed distance is the Euclidean norm of
`predictor - query`: in N dimensions the returned entry is the nonnegative
square root of the sum of squared differences, and 1-D distances are exactly
absolute differences. -/
theorem distance_is_euclidean_norm :
    (∀ (s : List ℚ) (x : List (List ℚ)) (ds : List ℚ) (i : ℕ) (row : List ℚ),
        ndDist s x = Except.ok ds → x[i]? = some row →
        ∃ t, ds[i]? = some t ∧ 0 ≤ t ∧
          t * t = ((rowDiff row s).map fun u => u * u).sum)
    ∧ ∀ (s : ℚ) (x : List ℚ),
        low1Dist s x = Except.ok (x.map fun t => |t - s|) := by
  constructor
  · intro s x ds i row hd hrow
    obtain ⟨t, ht, hn⟩ := ndDist_spec hd i row hrow
    obtain ⟨h0, hsq⟩ := rowNorm_ok hn
    exact ⟨t, ht, h0, hsq⟩
  · intro s x
    exact low1Dist_eq s x

/-- C5 witness: the point `[3,4]` at query `[0,0]` has distance 5
(`5 * 5 = 3*3 + 4*4`), and 1-D distances are absolute differences. -/
theorem distance_is_euclidean_norm_witness :
    (∃ t, ([5] : List ℚ)[0]? = some t ∧ 0 ≤ t ∧
        t * t = ((rowDiff [3, 4] [0, 0]).map fun u => u * u).sum)
    ∧ low1Dist 7 [3, 10] = Except.ok [4, 3] := by
  constructor
  · refine distance_is_euclidean_norm.1 [0, 0] [[3, 4]] [5] 0 [3, 4] ?_ rfl
    refine ndDist_cons_ok rfl ?_ (ndDist_nil [0, 0])
    have hdiff : rowDiff [3, 4] [0, 0] = [(3 : ℚ), 4] := by
      norm_num [rowDiff]
    have hsum : (([3, 4] : List ℚ).map fun t => t * t).sum = 5 * 5 := by
      norm_num
    rw [hdiff]
    unfold rowNorm
    rw [hsum]
    exact ratSqrt_sq 5 (by norm_num)
  · have h := low1Dist_eq 7 [3, 10]
    norm_num at h
    exact h

/-- C7: `lowess` returns the triple `(beta[1], beta[0], weights)` — slope
before intercept, weight vector third — while `lowessNd` returns the pair
`(beta, distances)`, exposing the distance vector instead of the weights. -/
theorem return_value_order :
    (∀ (s : ℚ) (x y : List ℚ) (bw : ℚ) (ds : List ℚ) (h : ℚ) (beta : List ℚ)
        (b1 b0 : ℚ),
        low1Dist s x = Except.ok ds →
        hFromDist ds (bandR bw x.length) = Except.ok h →
        ratSolve (low1A (weightsFrom tricube ds h) x)
            (low1B (weightsFrom tricube ds h) y x) = Except.ok beta →
        beta[1]? = some b1 → beta[0]? = some b0 →
        lowess s x y bw = Except.ok (b1, b0, weightsFrom tricube ds h))
    ∧ ∀ (s : List ℚ) (x : List (List ℚ)) (y : List ℚ) (k : ℚ → ℚ) (bw : ℚ)
        (rad : Bool) (ds : List ℚ) (h : ℚ),
        ndDist s x = Except.ok ds →
        hFromDist ds (bandR bw x.length) = Except.ok h →
        ∃ beta, lowessNd s x y k bw rad = Except.ok (beta, ds) := by
  constructor
  · intro s x y bw ds h beta b1 b0 hd hh hs h1 h0
    rw [lowess_run hd hh, liftSolve_ok hs, exceptBind_ok]
    exact pickSlopeIntercept_eq h1 h0
  · intro s x y k bw rad ds h hd hh
    exact ⟨_, lowessNd_run hd hh⟩

/-- C7 witness: on the exact line `y = x` with `x_star = 2`, `lowess`
returns slope 1 first, intercept 0 second, and the weight vector third;
`lowessNd` on `y = x` at `x_star = [0]` returns `(beta, distances)`. -/
theorem return_value_order_witness :
    lowess 2 [0, 1, 2, 3, 4] [0, 1, 2, 3, 4] (4/5)
      = Except.ok (1, 0, weightsFrom tricube [2, 1, 0, 1, 2] 2)
    ∧ ∃ beta, lowessNd [0] [[1], [2], [3]] [1, 2, 3] tricube (2/3) false
      = Except.ok (beta, [1, 2, 3]) := by
  constructor
  · have hd : low1Dist 2 [0, 1, 2, 3, 4] = Except.ok [2, 1, 0, 1, 2] := by
      have h := low1Dist_eq 2 [0, 1, 2, 3, 4]
      norm_num at h
      exact h
    have hh : hFromDist [2, 1, 0, 1, 2] (bandR (4/5) [0, 1, 2, 3, 4].length)
        = Except.ok 2 := by
      have hr : bandR (4/5) [0, 1, 2, 3, 4].length = 4 := by norm_num [bandR]
      rw [hr]
      exact hFromDist_ok (by norm_num) rfl
    have hw : weightsFrom tricube [2, 1, 0, 1, 2] 2
        = [0, 343/512, 1, 343/512, 0] := by
      norm_num [weightsFrom, tricube_of_lt, tricube_of_ge]
    have hA : low1A [0, 343/512, 1, 343/512, 0] [0, 1, 2, 3, 4]
        = [[599/256, 599/128], [599/128, 2739/256]] := by
      norm_num [low1A]
    have hB : low1B [0, 343/512, 1, 343/512, 0] [0, 1, 2, 3, 4] [0, 1, 2, 3, 4]
        = [599/128, 2739/256] := by
      norm_num [low1B]
    have hs : ratSolve
        (low1A (weightsFrom tricube [2, 1, 0, 1, 2] 2) [0, 1, 2, 3, 4])
        (low1B (weightsFrom tricube [2, 1, 0, 1, 2] 2) [0, 1, 2, 3, 4]
          [0, 1, 2, 3, 4])
        = Except.ok [0, 1] := by
      rw [hw, hA, hB, ratSolve_two_ok (599/256) (599/128) (599/128) (2739/256)
        (599/128) (2739/256) (by norm_num)]
      norm_num
    exact return_value_order.1 2 [0, 1, 2, 3, 4] [0, 1, 2, 3, 4] (4/5)
      [2, 1, 0, 1, 2] 2 [0, 1] 1 0 hd hh hs rfl rfl
  · have hd : ndDist [0] [[1], [2], [3]] = Except.ok [1, 2, 3] := by
      have h := ndDist_one 0 [1, 2, 3]
      norm_num at h
      exact h
    have hh : hFromDist [1, 2, 3] (bandR (2/3) [[1], [2], [3]].length)
        = Except.ok 3 := by
      have hr : bandR (2/3) [[1], [2], [3]].length = 2 := by norm_num [bandR]
      rw [hr]
      exact hFromDist_ok (by norm_num) rfl
    exact return_value_order.2 [0] [[1], [2], [3]] [1, 2, 3] tricube (2/3)
      false [1, 2, 3] 3 hd hh

/-- C8: the weighted normal-equations matrix built by either variant is
symmetric: entry (k,l) equals entry (l,k) for all in-range indices, for
every weight vector and every (extended) design matrix. -/
theorem weighted_matrix_symmetric :
    (∀ (w : List ℚ) (xe : List (List ℚ)) (dim k l : ℕ),
        k < dim + 1 → l < dim + 1 →
        ((ndA w xe dim).getD l [])[k]? = ((ndA w xe dim).getD k [])[l]?)
    ∧ ∀ (w x : List ℚ) (k l : ℕ), k < 2 → l < 2 →
        ((low1A w x).getD l [])[k]? = ((low1A w x).getD k [])[l]? := by
  constructor
  · intro w xe dim k l hk hl
    unfold ndA
    rw [rangeMap_getD _ hl, rangeMap_getD _ hk,
      rangeMap_getElem _ hk, rangeMap_getElem _ hl]
    congr 1
    exact map_sum_congr _ _ _ fun p _ => by ring
  · intro w x k l hk hl
    interval_cases k <;> interval_cases l <;> rfl

/-- C8 witness: concrete instances of both symmetry statements. -/
theorem weighted_matrix_symmetric_witness :
    ((ndA [1, 2] [[3, 4], [5, 6]] 1).getD 0 [])[1]?
        = ((ndA [1, 2] [[3, 4], [5, 6]] 1).getD 1 [])[0]?
    ∧ ((low1A [7, 8] [9, 10]).getD 0 [])[1]?
        = ((low1A [7, 8] [9, 10]).getD 1 [])[0]? :=
  ⟨weighted_matrix_symmetric.1 [1, 2] [[3, 4], [5, 6]] 1 1 0 (by norm_num)
      (by norm_num),
   weighted_matrix_symmetric.2 [7, 8] [9, 10] 1 0 (by norm_num) (by norm_num)⟩

/-- C6: the solver builds `b[k] = Σ_i w_i y_i X_{i,k}` and
`A[k,l] = Σ_i w_i X_{i,k} X_{i,l}` over the design matrix `X` whose column 0
is all ones and whose remaining columns are the predictors, in the N-D
builders and, with `X_i = (1, x_i)`, in the inlined 1-D builders. -/
theorem normal_equations_formulas :
    (∀ (x : List (List ℚ)) (y w : List ℚ) (dim k l : ℕ),
        y.length = x.length → w.length = x.length →
        k < dim + 1 → l < dim + 1 →
        (ndB y w (designExt x) dim)[k]?
            = some (∑ i ∈ Finset.range x.length,
                w.getD i 0 * y.getD i 0 * Xdesign x i k)
          ∧ ((ndA w (designExt x) dim).getD l [])[k]?
            = some (∑ i ∈ Finset.range x.length,
                w.getD i 0 * Xdesign x i k * Xdesign x i l))
    ∧ ∀ (w y x : List ℚ), w.length = x.length → y.length = x.length →
        low1B w y x
            = [∑ i ∈ Finset.range x.length, w.getD i 0 * y.getD i 0,
               ∑ i ∈ Finset.range x.length,
                 w.getD i 0 * y.getD i 0 * x.getD i 0]
          ∧ low1A w x
            = [[∑ i ∈ Finset.range x.length, w.getD i 0,
                ∑ i ∈ Finset.range x.length, w.getD i 0 * x.getD i 0],
               [∑ i ∈ Finset.range x.length, w.getD i 0 * x.getD i 0,
                ∑ i ∈ Finset.range x.length,
                  w.getD i 0 * x.getD i 0 * x.getD i 0]] := by
  constructor
  · intro x y w dim k l hy hw hk hl
    have hxe : (designExt x).length = y.length := by
      unfold designExt
      rw [List.length_map]
      exact hy.symm
    constructor
    · unfold ndB
      rw [rangeMap_getElem _ hk]
      have hz := zip3_map_sum ([] : List ℚ) (fun a b m => a * b * m.getD k 0)
        y w (designExt x) (hw.trans hy.symm) hxe
      rw [hz, hy]
      congr 1
      refine Finset.sum_congr rfl fun i _ => ?_
      unfold Xdesign
      ring
    · unfold ndA
      rw [rangeMap_getD _ hl, rangeMap_getElem _ hk]
      have hz := zip_map_sum (0 : ℚ) ([] : List ℚ)
        (fun a m => a * m.getD k 0 * m.getD l 0) w (designExt x)
        (by unfold designExt; rw [List.length_map]; exact hw.symm)
      rw [hz, hw]
      congr 1
  · intro w y x hw hy
    have hyw : y.length = w.length := hy.trans hw.symm
    have hxw : x.length = w.length := hw.symm
    constructor
    · unfold low1B
      have h0 := zip_map_sum (0 : ℚ) (0 : ℚ) (fun a b => a * b) w y hyw
      have h1 := zip3_map_sum (0 : ℚ) (fun a b c => a * b * c) w y x hyw hxw
      rw [h0, h1, hw]
    · unfold low1A
      have h2 := list_sum_eq w
      have h3 := zip_map_sum (0 : ℚ) (0 : ℚ) (fun a b => a * b) w x hxw
      have h4 := zip_map_sum (0 : ℚ) (0 : ℚ) (fun a b => a * b * b) w x hxw
      rw [h2, h3, h4, hw]

/-- C6 witness: concrete instances of all four builder formulas. -/
theorem normal_equations_formulas_witness :
    ((ndB [4, 5] [6, 7] (designExt [[2], [3]]) 1)[1]?
        = some (∑ i ∈ Finset.range ([[2], [3]] : List (List ℚ)).length,
            ([6, 7] : List ℚ).getD i 0 * ([4, 5] : List ℚ).getD i 0
              * Xdesign [[2], [3]] i 1)
      ∧ ((ndA [6, 7] (designExt [[2], [3]]) 1).getD 0 [])[1]?
        = some (∑ i ∈ Finset.range ([[2], [3]] : List (List ℚ)).length,
            ([6, 7] : List ℚ).getD i 0 * Xdesign [[2], [3]] i 1
              * Xdesign [[2], [3]] i 0))
    ∧ (low1B [1, 2] [3, 4] [5, 6]
        = [∑ i ∈ Finset.range ([5, 6] : List ℚ).length,
            ([1, 2] : List ℚ).getD i 0 * ([3, 4] : List ℚ).getD i 0,
           ∑ i ∈ Finset.range ([5, 6] : List ℚ).length,
            ([1, 2] : List ℚ).getD i 0 * ([3, 4] : List ℚ).getD i 0
              * ([5, 6] : List ℚ).getD i 0]
      ∧ low1A [1, 2] [5, 6]
        = [[∑ i ∈ Finset.range ([5, 6] : List ℚ).length,
              ([1, 2] : List ℚ).getD i 0,
            ∑ i ∈ Finset.range ([5, 6] : List ℚ).length,
              ([1, 2] : List ℚ).getD i 0 * ([5, 6] : List ℚ).getD i 0],
           [∑ i ∈ Finset.range ([5, 6] : List ℚ).length,
              ([1, 2] : List ℚ).getD i 0 * ([5, 6] : List ℚ).getD i 0,
            ∑ i ∈ Finset.range ([5, 6] : List ℚ).length,
              ([1, 2] : List ℚ).getD i 0 * ([5, 6] : List ℚ).getD i 0
                * ([5, 6] : List ℚ).getD i 0]]) :=
  ⟨normal_equations_formulas.1 [[2], [3]] [4, 5] [6, 7] 1 1 0 (by norm_num)
      (by norm_num) (by norm_num) (by norm_num),
   normal_equations_formulas.2 [1, 2] [3, 4] [5, 6] (by norm_num)
      (by norm_num)⟩

/-- C10: every failure of the linear solve in `lowessNd` — any `SolveErr`,
singular system or shape mismatch alike — is caught by the bare `except:`
and replaced by the zero-vector fallback; no solve failure ever escapes
`lowessNd`. -/
theorem solve_failure_never_escapes :
    (∀ (s : List ℚ) (x : List (List ℚ)) (y : List ℚ) (k : ℚ → ℚ) (bw : ℚ)
        (rad : Bool) (e : SolveErr),
        lowessNd s x y k bw rad ≠ Except.error (PyErr.solveFailed e))
    ∧ ∀ (s : List ℚ) (x : List (List ℚ)) (y : List ℚ) (k : ℚ → ℚ) (bw : ℚ)
        (rad : Bool) (ds : List ℚ) (h : ℚ) (e : SolveErr),
        ndDist s x = Except.ok ds →
        hFromDist ds (bandR bw x.length) = Except.ok h →
        ratSolve (ndA (weightsFrom k ds h) (designExt x) ((x.headD []).length))
            (ndB y (weightsFrom k ds h) (designExt x) ((x.headD []).length))
          = Except.error e →
        lowessNd s x y k bw rad
          = Except.ok (List.replicate (x.length + 1) 0, ds) := by
  constructor
  · intro s x y k bw rad e hcontra
    cases hd : ndDist s x with
    | error e2 =>
      rw [lowessNd_distErr hd] at hcontra
      injection hcontra with h2
      rcases ndDist_error_kind hd with h3 | h3 <;> rw [h3] at h2 <;>
        exact PyErr.noConfusion h2
    | ok ds =>
      cases hh : hFromDist ds (bandR bw x.length) with
      | error e2 =>
        rw [lowessNd_hErr hd hh] at hcontra
        injection hcontra with h2
        rw [hFromDist_error_kind hh] at h2
        exact PyErr.noConfusion h2
      | ok h =>
        rw [lowessNd_run hd hh] at hcontra
        exact Except.noConfusion hcontra
  · intro s x y k bw rad ds h e hd hh hs
    rw [lowessNd_run hd hh, solveOrZeros_error x.length hs]

/-- C10 witness: two coincident points at distance 3 give zero weights and
a singular system; `lowessNd` does not error and returns the zero
fallback. -/
theorem solve_failure_never_escapes_witness :
    lowessNd [0] [[3], [3]] [1, 2] tricube (1/2) true
      ≠ Except.error (PyErr.solveFailed SolveErr.singular)
    ∧ lowessNd [0] [[3], [3]] [1, 2] tricube (1/2) true
      = Except.ok ([0, 0, 0], [3, 3]) := by
  constructor
  · exact solve_failure_never_escapes.1 [0] [[3], [3]] [1, 2] tricube (1/2)
      true SolveErr.singular
  · have hd : ndDist [0] [[3], [3]] = Except.ok [3, 3] := by
      have h := ndDist_one 0 [3, 3]
      norm_num at h
      exact h
    have hh : hFromDist [3, 3] (bandR (1/2) [[3], [3]].length)
        = Except.ok 3 := by
      have hr : bandR (1/2) [[3], [3]].length = 1 := by norm_num [bandR]
      rw [hr]
      exact hFromDist_ok (by norm_num) rfl
    have hw : weightsFrom tricube [3, 3] 3 = [0, 0] := by
      norm_num [weightsFrom, tricube]
    have hA : ndA [0, 0] (designExt [[3], [3]]) 1 = [[0, 0], [0, 0]] := by
      norm_num [ndA, designExt, List.range_succ]
    have hB : ndB [1, 2] [0, 0] (designExt [[3], [3]]) 1 = [0, 0] := by
      norm_num [ndB, designExt, List.range_succ]
    have hs : ratSolve
        (ndA (weightsFrom tricube [3, 3] 3) (designExt [[3], [3]])
          (([[3], [3]] : List (List ℚ)).headD []).length)
        (ndB [1, 2] (weightsFrom tricube [3, 3] 3) (designExt [[3], [3]])
          (([[3], [3]] : List (List ℚ)).headD []).length)
        = Except.error SolveErr.singular := by
      show ratSolve
        (ndA (weightsFrom tricube [3, 3] 3) (designExt [[3], [3]]) 1)
        (ndB [1, 2] (weightsFrom tricube [3, 3] 3) (designExt [[3], [3]]) 1)
        = Except.error SolveErr.singular
      rw [hw, hA, hB]
      exact ratSolve_two_singular 0 0 0 0 0 0 (by norm_num)
    have hmain := solve_failure_never_escapes.2 [0] [[3], [3]] [1, 2] tricube
      (1/2) true [3, 3] 3 SolveErr.singular hd hh hs
    simpa [List.replicate] using hmain

end LowessModel
